import Mathlib

/-!
# Verification of `git-workspace` (src/git_workspace/cli.py)

A shallow embedding of the workspace batch-orchestration engine:
repository-spec resolution, the single-workspace init and fetch loops,
the recursive orchestrator, and the reporters.  External effects
(filesystem, the `git` subprocess) are modelled as explicit state and
abstract capability functions; every subprocess invocation is recorded
in a call trace so that "does not invoke clone/fetch" claims are statable.
-/

namespace GitWorkspace

/-- Status of one per-repository operation record
(`results.append({... 'status': ...})` in `cli.py`). -/
inductive Status where
  | success
  | failed
  | timeout
  deriving DecidableEq, Repr

/-- One per-repository result record, as appended to `results` in
`_init_single` / `_fetch_single`. -/
structure OperationResult where
  repo_url : String
  repo_name : String
  status : Status
  message : String
  deriving DecidableEq, Repr

/-- A repository entry of the configuration's `repositories` list:
a bare URL string, a JSON object (with optional `url` / `directory`
fields), or any other JSON value (the `else` branch of the loop).
The `other` constructor carries the `str(repo_config)` rendering. -/
inductive RepoConfig where
  | strUrl (url : String)
  | dict (url : Option String) (directory : Option String)
  | other (rendering : String)
  deriving DecidableEq, Repr

/-- Python truthiness of `repo_config.get(...)` for a string field:
`None` and the empty string are falsy. -/
def pyTruthy : Option String → Bool
  | none => false
  | some s => !s.isEmpty

/-- Python rendering of an optional string field. -/
def pyStrOpt : Option String → String
  | none => "None"
  | some s => "\x27" ++ s ++ "\x27"

/-- `str(repo_config)` for the record field `'repo_url': str(repo_config)`;
only used as diagnostic text, never inspected by the program. -/
def pyStr : RepoConfig → String
  | .strUrl u => u
  | .dict u d =>
    "\x7b\x27url\x27: " ++ pyStrOpt u ++ ", \x27directory\x27: " ++ pyStrOpt d ++ "\x7d"
  | .other rendering => rendering

/-- Python's `s.split(c)` for a single-character separator, on the
character list: keeps empty fields, `[] ↦ [[]]`. -/
def splitCharList (c : Char) : List Char → List (List Char)
  | [] => [[]]
  | x :: xs =>
    let r := splitCharList c xs
    if x = c then [] :: r
    else
      match r with
      | [] => [[x]]
      | y :: ys => (x :: y) :: ys

/-- Python's `url.split('/')`. -/
def pySplit (c : Char) (s : String) : List String :=
  (splitCharList c s.data).map (fun l => String.mk l)

/-- Python's `url.endswith('.git')`. -/
def pyEndsWith (s sfx : String) : Bool :=
  sfx.data.isSuffixOf s.data

/-- Python's `url[:-4]`: everything but the last four characters. -/
def pyDropRight (s : String) (n : Nat) : String :=
  String.mk (s.data.take (s.data.length - n))

/-- Python's `lst[-1]` on a list known to be non-empty (with a default
for the unreachable empty case). -/
def lastD {α : Type} : List α → α → α
  | [], d => d
  | [x], _ => x
  | _ :: y :: ys, d => lastD (y :: ys) d

/-- The first half of `_get_repo_name_from_url`:
`if url.endswith('.git'): url = url[:-4]`. -/
def stripDotGit (url : String) : String :=
  if pyEndsWith url ".git" then pyDropRight url 4 else url

/-- `_get_repo_name_from_url` (cli.py lines 382-389): strip a trailing
`.git`, then take `url.split('/')[-1]`. -/
def getRepoNameFromUrl (url : String) : String :=
  lastD (pySplit '/' (stripDotGit url)) ""

/-- `repo_config.get('directory') or _get_repo_name_from_url(repo_url)`:
an absent or empty `directory` falls back to the URL-derived name. -/
def resolveName (directory : Option String) (url : String) : String :=
  if pyTruthy directory then directory.getD "" else getRepoNameFromUrl url

/-- Outcome of the resolution prologue shared by both loops
(cli.py lines 252-277 and 529-554): either a `(url, localName)` pair,
or a skip record appended to `results` before `continue`. -/
inductive Resolution where
  | resolved (url : String) (name : String)
  | skip (record : OperationResult)
  deriving DecidableEq, Repr

/-- The string/dict/other dispatch at the head of each loop iteration. -/
def resolveRepo (rc : RepoConfig) : Resolution :=
  match rc with
  | .strUrl url => .resolved url (getRepoNameFromUrl url)
  | .dict urlOpt directory =>
    if pyTruthy urlOpt then
      let url := urlOpt.getD ""
      .resolved url (resolveName directory url)
    else
      .skip { repo_url := pyStr rc, repo_name := "unknown", status := .failed,
              message := "Missing \x27url\x27 field in repository configuration" }
  | .other rendering =>
    .skip { repo_url := rendering, repo_name := "unknown", status := .failed,
            message := "Repository configuration must be a string URL or object with url/directory fields" }

/-- Outcome of one `subprocess.run` invocation, as distinguished by the
`try`/`except` arms around each clone / fetch call. -/
inductive SubprocessOut where
  | completed (returncode : Int) (stdout : String) (stderr : String)
  | timedOut
  | gitMissing
  | raised (msg : String)
  deriving DecidableEq, Repr

/-- One recorded `subprocess.run` call: argument vector, working
directory (`cwd=` keyword, absent for clone), and timeout in seconds. -/
structure SubprocCall where
  args : List String
  cwd : Option String
  timeoutSecs : Nat
  deriving DecidableEq, Repr

/-- The workspace directory's children, as an association list from a
child directory's name to its (abstract) content. -/
abbrev FS := List (String × Nat)

/-- Whether a child named `name` exists (`repo_path.exists()`). -/
def FS.lookup (fs : FS) (name : String) : Option Nat :=
  match fs with
  | [] => none
  | (k, v) :: rest => if k = name then some v else FS.lookup rest name

/-- State threaded through a per-repository loop: the filesystem, the
append-only `results` sequence, and the trace of subprocess calls. -/
structure StepState where
  fs : FS
  results : List OperationResult
  calls : List SubprocCall
  deriving DecidableEq, Repr

/-- Append one result record (`results.append(...)`). -/
def StepState.record (st : StepState) (r : OperationResult) : StepState :=
  { st with results := st.results ++ [r] }

/-- Python's `result.stderr.strip() or result.stdout.strip() or 'Unknown error'`.
`strip` is modelled as `String.trim` (whitespace at both ends). -/
def errorMsgOf (stdout stderr : String) : String :=
  if !(stderr.trim).isEmpty then stderr.trim
  else if !(stdout.trim).isEmpty then stdout.trim
  else "Unknown error"

/-- Capabilities available to the init loop: the clone outcome for a
given `(url, destPath)` and the content a successful clone deposits. -/
structure InitEnv where
  targetPath : String
  clone : String → String → SubprocessOut
  cloneContent : String → Nat

/-- `str(target_path / repo_name)`. -/
def pathJoin (dir name : String) : String := dir ++ "/" ++ name

/-- One iteration of the `_init_single` main loop (cli.py lines 252-344):
resolve the entry, skip on malformed entries and pre-existing
destinations, otherwise run `git clone` and map its outcome. -/
def initStep (env : InitEnv) (st : StepState) (rc : RepoConfig) : StepState :=
  match resolveRepo rc with
  | .skip record => st.record record
  | .resolved url name =>
    if (st.fs.lookup name).isSome then
      st.record { repo_url := url, repo_name := name, status := .failed,
                  message := "Directory " ++ name ++ " already exists" }
    else
      let dest := pathJoin env.targetPath name
      let st : StepState :=
        { st with calls := st.calls ++ [⟨["git", "clone", url, dest], none, 300⟩] }
      match env.clone url dest with
      | .completed code stdout stderr =>
        if code = 0 then
          { st with
            fs := st.fs ++ [(name, env.cloneContent name)],
            results := st.results ++ [{ repo_url := url, repo_name := name,
                                        status := .success, message := "Successfully cloned" }] }
        else
          st.record { repo_url := url, repo_name := name, status := .failed,
                      message := errorMsgOf stdout stderr }
      | .timedOut =>
        st.record { repo_url := url, repo_name := name, status := .timeout,
                    message := "Clone operation timed out after 5 minutes" }
      | .gitMissing =>
        st.record { repo_url := url, repo_name := name, status := .failed,
                    message := "Git command not found. Please install Git." }
      | .raised msg =>
        st.record { repo_url := url, repo_name := name, status := .failed,
                    message := "Unexpected error: " ++ msg }

/-- The whole `_init_single` main loop over the `repositories` list. -/
def initLoop (env : InitEnv) (fs₀ : FS) (repos : List RepoConfig) : StepState :=
  repos.foldl (initStep env) ⟨fs₀, [], []⟩

/-- Capabilities available to the fetch loop: existence of the child
directory, presence of its `.git` marker, and the fetch outcome. -/
structure FetchEnv where
  targetPath : String
  dirExists : String → Bool
  hasGitDir : String → Bool
  fetchOut : String → SubprocessOut

/-- One iteration of the `_fetch_single` main loop (cli.py lines 529-634):
resolve the entry, require the destination to exist and be a git
repository, otherwise run `git fetch --all --prune` and map its outcome. -/
def fetchStep (env : FetchEnv) (st : StepState) (rc : RepoConfig) : StepState :=
  match resolveRepo rc with
  | .skip record => st.record record
  | .resolved url name =>
    if !(env.dirExists name) then
      st.record { repo_url := url, repo_name := name, status := .failed,
                  message := "Directory " ++ name ++ " does not exist. Run init first." }
    else if !(env.hasGitDir name) then
      st.record { repo_url := url, repo_name := name, status := .failed,
                  message := name ++ " is not a git repository" }
    else
      let repoPath := pathJoin env.targetPath name
      let st : StepState :=
        { st with calls := st.calls ++ [⟨["git", "fetch", "--all", "--prune"], some repoPath, 300⟩] }
      match env.fetchOut name with
      | .completed code stdout stderr =>
        if code = 0 then
          st.record { repo_url := url, repo_name := name, status := .success,
                      message := "Successfully fetched" }
        else
          st.record { repo_url := url, repo_name := name, status := .failed,
                      message := errorMsgOf stdout stderr }
      | .timedOut =>
        st.record { repo_url := url, repo_name := name, status := .timeout,
                    message := "Fetch operation timed out after 5 minutes" }
      | .gitMissing =>
        st.record { repo_url := url, repo_name := name, status := .failed,
                    message := "Git command not found. Please install Git." }
      | .raised msg =>
        st.record { repo_url := url, repo_name := name, status := .failed,
                    message := "Unexpected error: " ++ msg }

/-- The whole `_fetch_single` main loop over the `repositories` list
(the loop never mutates the filesystem component). -/
def fetchLoop (env : FetchEnv) (fs₀ : FS) (repos : List RepoConfig) : StepState :=
  repos.foldl (fetchStep env) ⟨fs₀, [], []⟩

/-- Outcome of `json.load` plus the `config_data.get('repositories', [])`
extraction: the repository list, or one of the two `except` arms. -/
inductive ParseOutcome where
  | ok (repos : List RepoConfig)
  | jsonError (msg : String)
  | readError (msg : String)
  deriving DecidableEq, Repr

/-- Outcome of `jsonschema.validate` against the packaged schema:
only `ValidationError` is a hard stop; a missing schema file or any
other exception degrades to a warning and the run continues. -/
inductive SchemaOutcome where
  | valid
  | invalid (msg : String)
  | schemaFileMissing
  | otherError (msg : String)
  deriving DecidableEq, Repr

/-- Which `sys.exit(1)` hard stop a run took, if any. -/
inductive StopReason where
  | configMissing
  | dirtyTarget (offending : List String)
  | invalidJson (msg : String)
  | readError (msg : String)
  | schemaInvalid (msg : String)
  | emptyRepos
  | targetMissing
  deriving DecidableEq, Repr

/-- The exit code passed to `sys.exit` for each hard stop
(every stop in `_init_single` / `_fetch_single` uses `sys.exit(1)`). -/
def stopExitCode : StopReason → Int
  | .configMissing => 1
  | .dirtyTarget _ => 1
  | .invalidJson _ => 1
  | .readError _ => 1
  | .schemaInvalid _ => 1
  | .emptyRepos => 1
  | .targetMissing => 1

/-- The external state and collaborator outcomes one single-workspace
run observes: file/directory existence, the target directory's entries,
the parse and schema-validation outcomes, and the VC capability. -/
structure World where
  configExists : Bool
  targetExists : Bool
  targetEntries : List String
  parse : ParseOutcome
  schema : SchemaOutcome
  gitignoreExists : Bool
  fs₀ : FS
  targetPath : String
  clone : String → String → SubprocessOut
  cloneContent : String → Nat
  dirExists : String → Bool
  hasGitDir : String → Bool
  fetchOut : String → SubprocessOut

/-- What a single-workspace run did: the hard stop it took (if any),
its directory-creation and ignore-file side effects, the result
sequence, the subprocess call trace, and the final filesystem. -/
structure RunOutcome where
  stop : Option StopReason
  dirCreated : Bool
  gitignoreWritten : Bool
  results : List OperationResult
  calls : List SubprocCall
  fs : FS
  deriving DecidableEq, Repr

/-- The allowlist of cli.py line 172. -/
def allowed_files : List String := ["workspace-config.json", ".gitignore", "README.md"]

/-- `[f for f in existing_files if f.name not in allowed_files]`. -/
def otherFiles (entries : List String) : List String :=
  entries.filter (fun f => !(allowed_files.contains f))

/-- The target-directory guard of cli.py lines 168-179: `some offending`
means abort listing those entries, `none` means proceed. -/
def initGuard (targetExists : Bool) (entries : List String) : Option (List String) :=
  if targetExists then
    let other := otherFiles entries
    if other.isEmpty then none else some other
  else none

/-- `_init_single` (cli.py lines 143-347): config-existence check,
target-directory guard, `mkdir`, JSON parse, schema validation,
non-empty `repositories` check, `.gitignore` creation, then the main
clone loop.  The order of the branches mirrors the source. -/
def init_single (w : World) : RunOutcome :=
  if !w.configExists then
    ⟨some .configMissing, false, false, [], [], w.fs₀⟩
  else
    match initGuard w.targetExists w.targetEntries with
    | some offending => ⟨some (.dirtyTarget offending), false, false, [], [], w.fs₀⟩
    | none =>
      let dirCreated := !w.targetExists
      match w.parse with
      | .jsonError m => ⟨some (.invalidJson m), dirCreated, false, [], [], w.fs₀⟩
      | .readError m => ⟨some (.readError m), dirCreated, false, [], [], w.fs₀⟩
      | .ok repos =>
        match w.schema with
        | .invalid m => ⟨some (.schemaInvalid m), dirCreated, false, [], [], w.fs₀⟩
        | _ =>
          if repos.isEmpty then
            ⟨some .emptyRepos, dirCreated, false, [], [], w.fs₀⟩
          else
            let gitignoreWritten := !w.gitignoreExists
            let st := initLoop ⟨w.targetPath, w.clone, w.cloneContent⟩ w.fs₀ repos
            ⟨none, dirCreated, gitignoreWritten, st.results, st.calls, st.fs⟩

/-- `_fetch_single` (cli.py lines 487-636): config-existence check,
target-directory existence check, JSON parse, non-empty `repositories`
check, then the main fetch loop.  No guard, no `mkdir`, no schema
validation, no `.gitignore` write. -/
def fetch_single (w : World) : RunOutcome :=
  if !w.configExists then
    ⟨some .configMissing, false, false, [], [], w.fs₀⟩
  else if !w.targetExists then
    ⟨some .targetMissing, false, false, [], [], w.fs₀⟩
  else
    match w.parse with
    | .jsonError m => ⟨some (.invalidJson m), false, false, [], [], w.fs₀⟩
    | .readError m => ⟨some (.readError m), false, false, [], [], w.fs₀⟩
    | .ok repos =>
      if repos.isEmpty then
        ⟨some .emptyRepos, false, false, [], [], w.fs₀⟩
      else
        let st := fetchLoop ⟨w.targetPath, w.dirExists, w.hasGitDir, w.fetchOut⟩ w.fs₀ repos
        ⟨none, false, false, st.results, st.calls, st.fs⟩

/-- How one `_init_single` / `_fetch_single` sub-invocation terminates,
as seen by the recursive orchestrator's `try`/`except` arms. -/
inductive SingleOutcome where
  | normal
  | sysExit (code : Int)
  | raised (msg : String)
  deriving DecidableEq, Repr

/-- One workspace's record in the recursive summary
(`results.append({'path': ..., 'status': ..., 'message': ...})`). -/
structure WorkspaceRun where
  path : String
  status : Status
  message : String
  deriving DecidableEq, Repr

/-- A completed run returns normally; a hard stop surfaces as
`SystemExit` with the stop's exit code. -/
def outcomeOf (o : RunOutcome) : SingleOutcome :=
  match o.stop with
  | some r => .sysExit (stopExitCode r)
  | none => .normal

/-- The loop body of `_init_recursive` (cli.py lines 86-113): the
`try` invokes `_init_single`; `except SystemExit` and `except Exception`
each convert the failure into a record and fall through to the next
iteration. -/
def initWorkspaceRun (single : String → SingleOutcome) (p : String) : WorkspaceRun :=
  match single p with
  | .normal => ⟨p, .success, "Workspace initialized successfully"⟩
  | .sysExit code => ⟨p, .failed, "Initialization failed (exit code: " ++ toString code ++ ")"⟩
  | .raised msg => ⟨p, .failed, "Unexpected error: " ++ msg⟩

/-- The `results` sequence produced by `_init_recursive`'s loop over the
discovered workspaces. -/
def initRecursiveRuns (single : String → SingleOutcome) (ws : List String) : List WorkspaceRun :=
  ws.foldl (fun results cf => results ++ [initWorkspaceRun single cf]) []

/-- The loop body of `_fetch_recursive` (cli.py lines 454-481). -/
def fetchWorkspaceRun (single : String → SingleOutcome) (p : String) : WorkspaceRun :=
  match single p with
  | .normal => ⟨p, .success, "Workspace fetched successfully"⟩
  | .sysExit code => ⟨p, .failed, "Fetch failed (exit code: " ++ toString code ++ ")"⟩
  | .raised msg => ⟨p, .failed, "Unexpected error: " ++ msg⟩

/-- The `results` sequence produced by `_fetch_recursive`'s loop. -/
def fetchRecursiveRuns (single : String → SingleOutcome) (ws : List String) : List WorkspaceRun :=
  ws.foldl (fun results cf => results ++ [fetchWorkspaceRun single cf]) []

/-- `len([r for r in results if r['status'] == s])`. -/
def countStatus (results : List OperationResult) (s : Status) : Nat :=
  (results.filter (fun r => r.status = s)).length

/-- The success rate of `_print_summary` / `_print_fetch_summary`
(cli.py lines 417-418 and 664-665):
`len(successful) / total * 100 if total > 0 else 0`. -/
def successRate (results : List OperationResult) : ℚ :=
  let total := results.length
  if total > 0 then (countStatus results .success : ℚ) / (total : ℚ) * 100 else 0

/-- The success rate of `_print_recursive_summary` (cli.py lines 137-138),
over workspace records. -/
def recursiveSuccessRate (results : List WorkspaceRun) : ℚ :=
  let successful := results.filter (fun r => r.status = .success)
  let total := results.length
  if total > 0 then (successful.length : ℚ) / (total : ℚ) * 100 else 0

/-- Interleave the separator back between split pieces (specification
device used to characterise `splitCharList`). -/
def joinSep (c : Char) : List (List Char) → List Char
  | [] => []
  | [p] => p
  | p :: q :: rest => p ++ c :: joinSep c (q :: rest)

/-- The `(repo_url, repo_name)` header of a result record. -/
def resultHeader (r : OperationResult) : String × String :=
  (r.repo_url, r.repo_name)

/-- The header a loop iteration gives the record for an entry; it
depends only on the entry itself, not on the environment or on prior
iterations. -/
def expectedHeader (rc : RepoConfig) : String × String :=
  match resolveRepo rc with
  | .resolved url name => (url, name)
  | .skip record => (record.repo_url, record.repo_name)

/-!
## Helper lemmas
-/

theorem splitCharList_ne_nil (c : Char) (l : List Char) : splitCharList c l ≠ [] := by
  induction l with
  | nil => simp [splitCharList]
  | cons x xs ih =>
    simp only [splitCharList]
    split
    · simp
    · split <;> simp

theorem not_mem_of_mem_splitCharList (c : Char) (l : List Char) :
    ∀ p ∈ splitCharList c l, c ∉ p := by
  induction l with
  | nil =>
    intro p hp
    simp [splitCharList] at hp
    subst hp; simp
  | cons x xs ih =>
    intro p hp
    simp only [splitCharList] at hp
    by_cases hx : x = c
    · rw [if_pos hx] at hp
      rcases List.mem_cons.mp hp with h | h
      · subst h; simp
      · exact ih p h
    · rw [if_neg hx] at hp
      rcases hmatch : splitCharList c xs with _ | ⟨y, ys⟩
      · exact absurd hmatch (splitCharList_ne_nil c xs)
      · rw [hmatch] at hp
        rcases List.mem_cons.mp hp with h | h
        · subst h
          intro hmem
          rcases List.mem_cons.mp hmem with h' | h'
          · exact hx h'.symm
          · exact ih y (by rw [hmatch]; exact List.mem_cons_self y ys) h'
        · exact ih p (by rw [hmatch]; exact List.mem_cons_of_mem y h)

theorem joinSep_splitCharList (c : Char) (l : List Char) :
    joinSep c (splitCharList c l) = l := by
  induction l with
  | nil => rfl
  | cons x xs ih =>
    simp only [splitCharList]
    by_cases hx : x = c
    · rw [if_pos hx]
      rcases hmatch : splitCharList c xs with _ | ⟨y, ys⟩
      · exact absurd hmatch (splitCharList_ne_nil c xs)
      · rw [hmatch] at ih
        subst hx
        show List.nil ++ x :: joinSep x (y :: ys) = x :: xs
        simpa [joinSep] using ih
    · rw [if_neg hx]
      rcases hmatch : splitCharList c xs with _ | ⟨y, ys⟩
      · exact absurd hmatch (splitCharList_ne_nil c xs)
      · rw [hmatch] at ih
        cases ys with
        | nil => simpa [joinSep] using ih
        | cons z zs =>
          simp only [joinSep] at ih ⊢
          rw [List.cons_append, ih]

theorem lastD_mem {α : Type} (l : List α) (d : α) (h : l ≠ []) : lastD l d ∈ l := by
  induction l with
  | nil => exact absurd rfl h
  | cons x xs ih =>
    cases xs with
    | nil => simp [lastD]
    | cons y ys =>
      have := ih (by simp)
      simp only [lastD]
      exact List.mem_cons_of_mem x this

theorem lastD_map {α β : Type} (f : α → β) (l : List α) (d : α) :
    lastD (l.map f) (f d) = f (lastD l d) := by
  induction l with
  | nil => rfl
  | cons x xs ih =>
    cases xs with
    | nil => rfl
    | cons y ys => simpa [lastD] using ih

theorem joinSep_last_decomp (c : Char) (pieces : List (List Char)) (h : pieces ≠ []) :
    ∃ pre, joinSep c pieces = pre ++ lastD pieces [] ∧
      (pre = [] ∨ pre.getLast? = some c) := by
  induction pieces with
  | nil => exact absurd rfl h
  | cons p rest ih =>
    cases rest with
    | nil => exact ⟨[], by simp [joinSep, lastD], Or.inl rfl⟩
    | cons q qs =>
      obtain ⟨pre, hpre, hend⟩ := ih (by simp)
      refine ⟨p ++ c :: pre, ?_, Or.inr ?_⟩
      · simp only [joinSep, lastD, hpre, List.append_assoc, List.cons_append]
      · rcases hend with h0 | hl
        · subst h0
          simp
        · rw [List.getLast?_append, show (c :: pre) = [c] ++ pre from rfl,
            List.getLast?_append, hl]
          rfl

theorem getRepoNameFromUrl_data (url : String) :
    (getRepoNameFromUrl url).data = lastD (splitCharList '/' (stripDotGit url).data) [] := by
  show (lastD ((splitCharList '/' (stripDotGit url).data).map (fun l => String.mk l))
    (String.mk [])).data = _
  rw [lastD_map]

theorem getRepoNameFromUrl_no_sep (url : String) : '/' ∉ (getRepoNameFromUrl url).data := by
  rw [getRepoNameFromUrl_data]
  exact not_mem_of_mem_splitCharList '/' (stripDotGit url).data _
    (lastD_mem _ _ (splitCharList_ne_nil '/' (stripDotGit url).data))

theorem getRepoNameFromUrl_last_segment (url : String) :
    ∃ pre, (stripDotGit url).data = pre ++ (getRepoNameFromUrl url).data ∧
      (pre = [] ∨ pre.getLast? = some '/') ∧ '/' ∉ (getRepoNameFromUrl url).data := by
  obtain ⟨pre, hpre, hend⟩ :=
    joinSep_last_decomp '/' (splitCharList '/' (stripDotGit url).data)
      (splitCharList_ne_nil '/' (stripDotGit url).data)
  refine ⟨pre, ?_, hend, getRepoNameFromUrl_no_sep url⟩
  rw [getRepoNameFromUrl_data]
  rw [joinSep_splitCharList] at hpre
  exact hpre


theorem initStep_headers (env : InitEnv) (st : StepState) (rc : RepoConfig) :
    (initStep env st rc).results.map resultHeader =
      st.results.map resultHeader ++ [expectedHeader rc] := by
  rcases h : resolveRepo rc with ⟨url, name⟩ | ⟨record⟩ <;>
    simp only [initStep, expectedHeader, h]
  · split
    · simp [StepState.record, resultHeader]
    · cases hc : env.clone url (pathJoin env.targetPath name) with
      | completed code out err =>
        dsimp only
        split <;> simp [StepState.record, resultHeader]
      | timedOut => simp [StepState.record, resultHeader]
      | gitMissing => simp [StepState.record, resultHeader]
      | raised m => simp [StepState.record, resultHeader]
  · simp [StepState.record, resultHeader]

theorem fetchStep_headers (env : FetchEnv) (st : StepState) (rc : RepoConfig) :
    (fetchStep env st rc).results.map resultHeader =
      st.results.map resultHeader ++ [expectedHeader rc] := by
  rcases h : resolveRepo rc with ⟨url, name⟩ | ⟨record⟩ <;>
    simp only [fetchStep, expectedHeader, h]
  · split
    · simp [StepState.record, resultHeader]
    · split
      · simp [StepState.record, resultHeader]
      · cases hc : env.fetchOut name with
        | completed code out err =>
          dsimp only
          split <;> simp [StepState.record, resultHeader]
        | timedOut => simp [StepState.record, resultHeader]
        | gitMissing => simp [StepState.record, resultHeader]
        | raised m => simp [StepState.record, resultHeader]
  · simp [StepState.record, resultHeader]

theorem initFold_headers (env : InitEnv) (repos : List RepoConfig) :
    ∀ st : StepState,
      (repos.foldl (initStep env) st).results.map resultHeader =
        st.results.map resultHeader ++ repos.map expectedHeader := by
  induction repos with
  | nil => intro st; simp
  | cons rc rest ih =>
    intro st
    simp only [List.foldl_cons, List.map_cons]
    rw [ih, initStep_headers]
    simp

theorem fetchFold_headers (env : FetchEnv) (repos : List RepoConfig) :
    ∀ st : StepState,
      (repos.foldl (fetchStep env) st).results.map resultHeader =
        st.results.map resultHeader ++ repos.map expectedHeader := by
  induction repos with
  | nil => intro st; simp
  | cons rc rest ih =>
    intro st
    simp only [List.foldl_cons, List.map_cons]
    rw [ih, fetchStep_headers]
    simp


theorem foldl_append_eq_map {α β : Type} (f : α → β) (l : List α) :
    ∀ acc : List β, l.foldl (fun results x => results ++ [f x]) acc = acc ++ l.map f := by
  induction l with
  | nil => intro acc; simp
  | cons x xs ih => intro acc; simp [List.foldl_cons, ih]

theorem initRecursiveRuns_eq_map (single : String → SingleOutcome) (ws : List String) :
    initRecursiveRuns single ws = ws.map (initWorkspaceRun single) := by
  unfold initRecursiveRuns
  simpa using foldl_append_eq_map (initWorkspaceRun single) ws []

theorem fetchRecursiveRuns_eq_map (single : String → SingleOutcome) (ws : List String) :
    fetchRecursiveRuns single ws = ws.map (fetchWorkspaceRun single) := by
  unfold fetchRecursiveRuns
  simpa using foldl_append_eq_map (fetchWorkspaceRun single) ws []

theorem fetchStep_calls_pred (env : FetchEnv) (st : StepState) (rc : RepoConfig)
    (P : SubprocCall → Prop)
    (hP : ∀ p, P ⟨["git", "fetch", "--all", "--prune"], some p, 300⟩)
    (h : ∀ call ∈ st.calls, P call) :
    ∀ call ∈ (fetchStep env st rc).calls, P call := by
  intro call hc
  rcases hres : resolveRepo rc with ⟨url, name⟩ | ⟨record⟩ <;>
    simp only [fetchStep, hres, StepState.record] at hc
  · split at hc
    · exact h call hc
    · split at hc
      · exact h call hc
      · cases henv : env.fetchOut name <;> simp only [henv] at hc
        · split at hc <;>
            { simp only [List.mem_append, List.mem_singleton] at hc
              rcases hc with hc | hc
              · exact h call hc
              · subst hc; exact hP _ }
        all_goals
          simp only [List.mem_append, List.mem_singleton] at hc
          rcases hc with hc | hc
          · exact h call hc
          · subst hc; exact hP _
  · exact h call hc

theorem fetchFold_calls_pred (env : FetchEnv) (repos : List RepoConfig)
    (P : SubprocCall → Prop)
    (hP : ∀ p, P ⟨["git", "fetch", "--all", "--prune"], some p, 300⟩) :
    ∀ st : StepState, (∀ call ∈ st.calls, P call) →
      ∀ call ∈ (repos.foldl (fetchStep env) st).calls, P call := by
  induction repos with
  | nil => intro st h; simpa using h
  | cons rc rest ih =>
    intro st h
    simp only [List.foldl_cons]
    exact ih _ (fetchStep_calls_pred env st rc P hP h)

theorem initStep_calls_pred (env : InitEnv) (st : StepState) (rc : RepoConfig)
    (P : SubprocCall → Prop)
    (hP : ∀ url dest, P ⟨["git", "clone", url, dest], none, 300⟩)
    (h : ∀ call ∈ st.calls, P call) :
    ∀ call ∈ (initStep env st rc).calls, P call := by
  intro call hc
  rcases hres : resolveRepo rc with ⟨url, name⟩ | ⟨record⟩ <;>
    simp only [initStep, hres, StepState.record] at hc
  · split at hc
    · exact h call hc
    · cases henv : env.clone url (pathJoin env.targetPath name) <;> simp only [henv] at hc
      · split at hc <;>
          { simp only [List.mem_append, List.mem_singleton] at hc
            rcases hc with hc | hc
            · exact h call hc
            · subst hc; exact hP _ _ }
      all_goals
        simp only [List.mem_append, List.mem_singleton] at hc
        rcases hc with hc | hc
        · exact h call hc
        · subst hc; exact hP _ _
  · exact h call hc

theorem initFold_calls_pred (env : InitEnv) (repos : List RepoConfig)
    (P : SubprocCall → Prop)
    (hP : ∀ url dest, P ⟨["git", "clone", url, dest], none, 300⟩) :
    ∀ st : StepState, (∀ call ∈ st.calls, P call) →
      ∀ call ∈ (repos.foldl (initStep env) st).calls, P call := by
  induction repos with
  | nil => intro st h; simpa using h
  | cons rc rest ih =>
    intro st h
    simp only [List.foldl_cons]
    exact ih _ (initStep_calls_pred env st rc P hP h)


/-!
## Claim theorems
-/

/-- C1: workspace-level failure isolation.  For every non-empty discovered
workspace list, the recursive init and fetch orchestrators produce exactly one
`WorkspaceRun` per workspace, in discovery order, each carrying that
workspace's path; a sub-invocation that exits via `SystemExit` or raises is
recorded as `failed` with the corresponding message, and — since the result
list is exactly the map over all workspaces — every subsequent workspace is
still attempted. -/
theorem workspace_failure_isolation
    (isingle fsingle : String → SingleOutcome) (ws : List String) (hne : ws ≠ []) :
    (initRecursiveRuns isingle ws).length = ws.length ∧
    (fetchRecursiveRuns fsingle ws).length = ws.length ∧
    initRecursiveRuns isingle ws = ws.map (initWorkspaceRun isingle) ∧
    fetchRecursiveRuns fsingle ws = ws.map (fetchWorkspaceRun fsingle) ∧
    (∀ p, (initWorkspaceRun isingle p).path = p ∧ (fetchWorkspaceRun fsingle p).path = p) ∧
    (∀ p c, isingle p = .sysExit c →
      (initWorkspaceRun isingle p).status = .failed ∧
      (initWorkspaceRun isingle p).message =
        "Initialization failed (exit code: " ++ toString c ++ ")") ∧
    (∀ p m, isingle p = .raised m →
      (initWorkspaceRun isingle p).status = .failed ∧
      (initWorkspaceRun isingle p).message = "Unexpected error: " ++ m) ∧
    (∀ p c, fsingle p = .sysExit c →
      (fetchWorkspaceRun fsingle p).status = .failed ∧
      (fetchWorkspaceRun fsingle p).message =
        "Fetch failed (exit code: " ++ toString c ++ ")") ∧
    (∀ p m, fsingle p = .raised m →
      (fetchWorkspaceRun fsingle p).status = .failed ∧
      (fetchWorkspaceRun fsingle p).message = "Unexpected error: " ++ m) := by
  refine ⟨?_, ?_, initRecursiveRuns_eq_map _ _, fetchRecursiveRuns_eq_map _ _, ?_, ?_, ?_, ?_, ?_⟩
  · rw [initRecursiveRuns_eq_map]; simp
  · rw [fetchRecursiveRuns_eq_map]; simp
  · intro p
    constructor <;> [cases h : isingle p; cases h : fsingle p] <;>
      simp [initWorkspaceRun, fetchWorkspaceRun, h]
  · intro p c h; simp [initWorkspaceRun, h]
  · intro p m h; simp [initWorkspaceRun, h]
  · intro p c h; simp [fetchWorkspaceRun, h]
  · intro p m h; simp [fetchWorkspaceRun, h]

theorem workspace_failure_isolation_witness :
    (initRecursiveRuns (fun p => if p = "a" then .sysExit 1 else .normal) ["a", "b"]).length = 2 := by
  have h := workspace_failure_isolation (fun p => if p = "a" then .sysExit 1 else .normal)
    (fun _ => SingleOutcome.normal) ["a", "b"] (by simp)
  simpa using h.1

/-- C2: per-repository failure isolation and completeness.  For every
repositories list, under any environment (so for every combination of
malformed entries, pre-existing destinations, clone/fetch failures, timeouts
and missing VC clients), the init and fetch loops produce exactly one
`OperationResult` per `RepoSpec`, in configuration order, each attributed to
the entry's resolved `(url, name)` header. -/
theorem per_repo_result_completeness (ienv : InitEnv) (fenv : FetchEnv)
    (fs₀ : FS) (repos : List RepoConfig) :
    (initLoop ienv fs₀ repos).results.length = repos.length ∧
    (initLoop ienv fs₀ repos).results.map resultHeader = repos.map expectedHeader ∧
    (fetchLoop fenv fs₀ repos).results.length = repos.length ∧
    (fetchLoop fenv fs₀ repos).results.map resultHeader = repos.map expectedHeader := by
  have h1 := initFold_headers ienv repos ⟨fs₀, [], []⟩
  have h2 := fetchFold_headers fenv repos ⟨fs₀, [], []⟩
  simp only [List.map_nil, List.nil_append] at h1 h2
  refine ⟨?_, h1, ?_, h2⟩
  · have := congrArg List.length h1; simpa using this
  · have := congrArg List.length h2; simpa using this

/-- C4: RepoTarget resolution.  A plain-string spec resolves to the URL with
the URL-derived local name, which is the last `'/'`-separated segment of the
URL after stripping a trailing `.git` (witnessed by the decomposition of the
stripped URL into a prefix ending in `'/'` — or empty — followed by the
separator-free name); an object with a non-empty `directory` resolves to that
directory regardless of the URL; an absent or empty `directory` falls back to
the URL-derived name. -/
theorem repo_target_resolution (url d : String) (hu : url ≠ "") (hd : d ≠ "") :
    resolveRepo (.strUrl url) = .resolved url (getRepoNameFromUrl url) ∧
    getRepoNameFromUrl url = lastD (pySplit '/' (stripDotGit url)) "" ∧
    (∃ pre, (stripDotGit url).data = pre ++ (getRepoNameFromUrl url).data ∧
      (pre = [] ∨ pre.getLast? = some '/') ∧ '/' ∉ (getRepoNameFromUrl url).data) ∧
    resolveRepo (.dict (some url) (some d)) = .resolved url d ∧
    resolveRepo (.dict (some url) none) = .resolved url (getRepoNameFromUrl url) ∧
    resolveRepo (.dict (some url) (some "")) = .resolved url (getRepoNameFromUrl url) := by
  have hu' : url.isEmpty = false := by
    rw [Bool.eq_false_iff]
    intro h; exact hu ((String.isEmpty_iff url).mp h)
  have hd' : d.isEmpty = false := by
    rw [Bool.eq_false_iff]
    intro h; exact hd ((String.isEmpty_iff d).mp h)
  refine ⟨rfl, rfl, getRepoNameFromUrl_last_segment url, ?_, ?_, ?_⟩
  · simp [resolveRepo, pyTruthy, hu', resolveName, hd']
  · simp [resolveRepo, pyTruthy, hu', resolveName]
  · have : "".isEmpty = true := rfl
    simp [resolveRepo, pyTruthy, hu', resolveName, this]

theorem repo_target_resolution_witness :
    resolveRepo (.dict (some "https://example.com/user/repo.git") (some "custom")) =
      .resolved "https://example.com/user/repo.git" "custom" ∧
    resolveRepo (.strUrl "https://example.com/user/repo.git") =
      .resolved "https://example.com/user/repo.git" "repo" := by
  have h := repo_target_resolution "https://example.com/user/repo.git" "custom"
    (by decide) (by decide)
  refine ⟨h.2.2.2.1, ?_⟩
  have h1 := h.1
  have : getRepoNameFromUrl "https://example.com/user/repo.git" = "repo" := by decide
  rwa [this] at h1

/-- C5: reporter success rate.  The reported rate is
`successCount / total * 100` for any non-empty result sequence, `0` for the
empty sequence (no division by zero), and exactly `100` for any non-empty
all-success sequence — both for per-repository summaries and for the
recursive workspace summary. -/
theorem reporter_success_rate (results : List OperationResult) (wruns : List WorkspaceRun)
    (hne : results ≠ []) (hall : ∀ r ∈ results, r.status = .success)
    (wne : wruns ≠ []) (wall : ∀ r ∈ wruns, r.status = .success) :
    successRate [] = 0 ∧
    recursiveSuccessRate [] = 0 ∧
    (∀ rs : List OperationResult, rs ≠ [] →
      successRate rs = (countStatus rs .success : ℚ) / (rs.length : ℚ) * 100) ∧
    successRate results = 100 ∧
    recursiveSuccessRate wruns = 100 := by
  refine ⟨by simp [successRate], by simp [recursiveSuccessRate], ?_, ?_, ?_⟩
  · intro rs h
    simp [successRate, List.length_pos.mpr h]
  · have hcount : countStatus results .success = results.length := by
      unfold countStatus
      rw [List.filter_eq_self.mpr]
      intro r hr
      simpa using hall r hr
    have hlen : (results.length : ℚ) ≠ 0 := by
      simpa using List.length_pos.mpr hne |>.ne'
    simp only [successRate, List.length_pos.mpr hne, if_pos, hcount]
    field_simp
  · have hfilter : wruns.filter (fun r => r.status = .success) = wruns := by
      rw [List.filter_eq_self.mpr]
      intro r hr
      simpa using wall r hr
    have hlen : (wruns.length : ℚ) ≠ 0 := by
      simpa using List.length_pos.mpr wne |>.ne'
    simp only [recursiveSuccessRate, hfilter, List.length_pos.mpr wne, if_pos]
    field_simp

theorem reporter_success_rate_witness :
    successRate [⟨"u", "r", .success, "Successfully cloned"⟩] = 100 := by
  have h := reporter_success_rate [⟨"u", "r", .success, "Successfully cloned"⟩]
    [⟨".", .success, "Workspace initialized successfully"⟩]
    (by simp) (by intro r hr; simp at hr; subst hr; rfl)
    (by simp) (by intro r hr; simp at hr; subst hr; rfl)
  exact h.2.2.2.1


/-- C3: init target-directory guard.  If the target directory exists and
contains an entry outside the allowlist, `_init_single` stops at the guard
with exit code 1 and the offending list is exactly the non-allowlisted
entries (sound and complete); if every entry is allowlisted (or the directory
does not exist) the run never stops with a `dirtyTarget` reason. -/
theorem init_target_dir_guard (w : World) (e : String)
    (hc : w.configExists = true) (ht : w.targetExists = true)
    (he : e ∈ w.targetEntries) (hbad : e ∉ allowed_files) :
    (init_single w).stop = some (.dirtyTarget (otherFiles w.targetEntries)) ∧
    e ∈ otherFiles w.targetEntries ∧
    (∀ f ∈ w.targetEntries, f ∉ allowed_files → f ∈ otherFiles w.targetEntries) ∧
    (∀ f ∈ otherFiles w.targetEntries, f ∈ w.targetEntries ∧ f ∉ allowed_files) ∧
    stopExitCode (.dirtyTarget (otherFiles w.targetEntries)) = 1 ∧
    (∀ w' : World, (∀ f ∈ w'.targetEntries, f ∈ allowed_files) →
      ∀ l, (init_single w').stop ≠ some (.dirtyTarget l)) := by
  have hmem : ∀ f ∈ w.targetEntries, f ∉ allowed_files → f ∈ otherFiles w.targetEntries := by
    intro f hf hnf
    unfold otherFiles
    rw [List.mem_filter]
    refine ⟨hf, ?_⟩
    simp only [Bool.not_eq_true']
    rw [Bool.eq_false_iff]
    intro hcon
    exact hnf (List.elem_iff.mp hcon)
  have he' : e ∈ otherFiles w.targetEntries := hmem e he hbad
  have hne : (otherFiles w.targetEntries).isEmpty = false :=
    List.isEmpty_eq_false.mpr (List.ne_nil_of_mem he')
  have hguard : initGuard w.targetExists w.targetEntries =
      some (otherFiles w.targetEntries) := by
    simp [initGuard, ht, hne]
  refine ⟨?_, he', hmem, ?_, rfl, ?_⟩
  · simp [init_single, hc, hguard]
  · intro f hf
    unfold otherFiles at hf
    rw [List.mem_filter] at hf
    refine ⟨hf.1, ?_⟩
    intro hcon
    have := hf.2
    simp only [Bool.not_eq_true'] at this
    rw [Bool.eq_false_iff] at this
    exact this (List.elem_iff.mpr hcon)
  · intro w' hall l
    have hguard' : initGuard w'.targetExists w'.targetEntries = none := by
      have hof : otherFiles w'.targetEntries = [] := by
        unfold otherFiles
        rw [List.filter_eq_nil_iff]
        intro f hf
        simp only [Bool.not_eq_true', Bool.not_eq_false]
        exact List.elem_iff.mpr (hall f hf)
      cases htx : w'.targetExists <;> simp [initGuard, htx, hof]
    cases hcfg : w'.configExists with
    | false => simp [init_single, hcfg]
    | true =>
      cases hp : w'.parse with
      | jsonError m => simp [init_single, hcfg, hguard', hp]
      | readError m => simp [init_single, hcfg, hguard', hp]
      | ok repos =>
        cases hs : w'.schema <;>
          simp only [init_single, hcfg, hguard', hp, hs, Bool.not_true, Bool.false_eq_true,
            if_false] <;> (try split) <;> simp


/-- C6: init never overwrites.  When an entry's resolved destination already
exists, the init loop appends exactly one failed record whose message ends in
"already exists", invokes no subprocess (the clone call trace is unchanged),
leaves the filesystem unchanged, and the loop still produces one record for
every remaining entry. -/
theorem init_never_overwrites (env : InitEnv) (st : StepState) (rc : RepoConfig)
    (url name : String) (rest : List RepoConfig)
    (hres : resolveRepo rc = .resolved url name)
    (hex : (st.fs.lookup name).isSome = true) :
    initStep env st rc = { st with results := st.results ++
        [⟨url, name, .failed, "Directory " ++ name ++ " already exists"⟩] } ∧
    (initStep env st rc).fs = st.fs ∧
    (initStep env st rc).calls = st.calls ∧
    pyEndsWith ("Directory " ++ name ++ " already exists") "already exists" = true ∧
    ((rc :: rest).foldl (initStep env) st).results.length =
      st.results.length + (rest.length + 1) := by
  have hstep : initStep env st rc = { st with results := st.results ++
      [⟨url, name, .failed, "Directory " ++ name ++ " already exists"⟩] } := by
    simp [initStep, hres, hex, StepState.record]
  refine ⟨hstep, by rw [hstep], by rw [hstep], ?_, ?_⟩
  · rw [pyEndsWith, List.isSuffixOf_iff_suffix]
    have h1 : (" already exists" : String).data = ' ' :: ("already exists" : String).data := by
      decide
    have h2 : ("Directory " ++ name ++ " already exists").data =
        (("Directory " : String).data ++ (name.data ++ [' '])) ++
          ("already exists" : String).data := by
      show ("Directory " : String).data ++ (name ++ " already exists").data = _
      show ("Directory " : String).data ++ (name.data ++ (" already exists" : String).data) = _
      rw [h1]
      simp
    rw [h2]
    exact List.suffix_append _ _
  · have h := congrArg List.length (initFold_headers env (rc :: rest) st)
    simpa using h

/-- C8: per-repository failures never change the exit code.  A run whose
preconditions pass (config present, clean target, parse ok, schema not
invalid, non-empty repositories) takes no hard stop regardless of the clone
outcomes, producing one record per entry; it surfaces to the recursive
orchestrator as a normal return, which is recorded as a `success`
`WorkspaceRun`. -/
theorem completed_run_exits_zero (w : World) (repos : List RepoConfig)
    (hc : w.configExists = true)
    (hg : initGuard w.targetExists w.targetEntries = none)
    (hp : w.parse = .ok repos)
    (hs : ∀ m, w.schema ≠ .invalid m)
    (hn : repos ≠ []) :
    (init_single w).stop = none ∧
    outcomeOf (init_single w) = .normal ∧
    (init_single w).results.length = repos.length ∧
    (∀ single p, single p = SingleOutcome.normal →
      (initWorkspaceRun single p).status = .success ∧
      (fetchWorkspaceRun single p).status = .success) := by
  have hrun : init_single w = ⟨none, !w.targetExists, !w.gitignoreExists,
      (initLoop ⟨w.targetPath, w.clone, w.cloneContent⟩ w.fs₀ repos).results,
      (initLoop ⟨w.targetPath, w.clone, w.cloneContent⟩ w.fs₀ repos).calls,
      (initLoop ⟨w.targetPath, w.clone, w.cloneContent⟩ w.fs₀ repos).fs⟩ := by
    have hne : repos.isEmpty = false := List.isEmpty_eq_false.mpr hn
    cases hsch : w.schema with
    | invalid m => exact absurd hsch (hs m)
    | valid => simp [init_single, hc, hg, hp, hsch, hne]
    | schemaFileMissing => simp [init_single, hc, hg, hp, hsch, hne]
    | otherError m => simp [init_single, hc, hg, hp, hsch, hne]
  refine ⟨by rw [hrun], by rw [hrun]; rfl, ?_, ?_⟩
  · rw [hrun]
    have h := congrArg List.length
      (initFold_headers ⟨w.targetPath, w.clone, w.cloneContent⟩ repos ⟨w.fs₀, [], []⟩)
    simpa using h
  · intro single p h
    simp [initWorkspaceRun, fetchWorkspaceRun, h]

/-- C10: the mkdir side effect precedes parsing.  When the target directory
did not exist and the config file exists, a JSON-parse failure or a schema
validation failure stops the run with exit code 1 with `dirCreated = true`:
the directory-creation side effect has already happened. -/
theorem init_mkdir_precedes_parse (w : World)
    (hc : w.configExists = true) (ht : w.targetExists = false) :
    (∀ m, w.parse = .jsonError m →
      (init_single w).stop = some (.invalidJson m) ∧ (init_single w).dirCreated = true ∧
      stopExitCode (.invalidJson m) = 1) ∧
    (∀ repos m, w.parse = .ok repos → w.schema = .invalid m →
      (init_single w).stop = some (.schemaInvalid m) ∧ (init_single w).dirCreated = true ∧
      stopExitCode (.schemaInvalid m) = 1) := by
  constructor
  · intro m hm
    refine ⟨?_, ?_, rfl⟩ <;> simp [init_single, hc, hm, ht, initGuard]
  · intro repos m hp hsc
    refine ⟨?_, ?_, rfl⟩ <;> simp [init_single, hc, hp, hsc, ht, initGuard]


theorem fetch_single_calls (w : World) :
    (fetch_single w).calls = [] ∨
    ∃ repos, w.parse = .ok repos ∧ (fetch_single w).calls =
      (fetchLoop ⟨w.targetPath, w.dirExists, w.hasGitDir, w.fetchOut⟩ w.fs₀ repos).calls := by
  cases hcfg : w.configExists with
  | false => left; simp [fetch_single, hcfg]
  | true =>
    cases htx : w.targetExists with
    | false => left; simp [fetch_single, hcfg, htx]
    | true =>
      cases hp : w.parse with
      | jsonError m => left; simp [fetch_single, hcfg, htx, hp]
      | readError m => left; simp [fetch_single, hcfg, htx, hp]
      | ok repos =>
        by_cases hre : repos.isEmpty
        · left; simp [fetch_single, hcfg, htx, hp, hre]
        · right; exact ⟨repos, rfl, by simp [fetch_single, hcfg, htx, hp, hre]⟩

/-- C7: fetch preconditions.  `_fetch_single` hard-stops (exit code 1) when
the target directory does not exist; its result is independent of the schema
outcome and of ignore-file existence, and it never creates a directory or
writes an ignore file; per repository, `git fetch --all --prune` (timeout
300 s — the same timeout every clone call uses) is invoked only when the
destination exists and has a `.git` marker, otherwise one failed record is
appended with no subprocess call. -/
theorem fetch_preconditions (w : World) (env : FetchEnv) (st : StepState) (rc : RepoConfig)
    (url name : String) (hres : resolveRepo rc = .resolved url name) :
    (w.targetExists = false → (fetch_single w).stop.isSome = true) ∧
    (∀ r, stopExitCode r = 1) ∧
    (∀ s₁ s₂ b₁ b₂, fetch_single { w with schema := s₁, gitignoreExists := b₁ } =
      fetch_single { w with schema := s₂, gitignoreExists := b₂ }) ∧
    (fetch_single w).gitignoreWritten = false ∧
    (fetch_single w).dirCreated = false ∧
    (env.dirExists name = false →
      fetchStep env st rc = st.record ⟨url, name, .failed,
        "Directory " ++ name ++ " does not exist. Run init first."⟩ ∧
      (fetchStep env st rc).calls = st.calls) ∧
    (env.dirExists name = true → env.hasGitDir name = false →
      fetchStep env st rc = st.record ⟨url, name, .failed, name ++ " is not a git repository"⟩ ∧
      (fetchStep env st rc).calls = st.calls) ∧
    (env.dirExists name = true → env.hasGitDir name = true →
      (fetchStep env st rc).calls = st.calls ++
        [⟨["git", "fetch", "--all", "--prune"], some (pathJoin env.targetPath name), 300⟩]) ∧
    (∀ call ∈ (fetch_single w).calls,
      call.args = ["git", "fetch", "--all", "--prune"] ∧ call.timeoutSecs = 300) ∧
    (∀ ienv fs₀ repos call, call ∈ (initLoop ienv fs₀ repos).calls → call.timeoutSecs = 300) := by
  refine ⟨?_, ?_, ?_, ?_, ?_, ?_, ?_, ?_, ?_, ?_⟩
  · intro ht
    cases hcfg : w.configExists <;> simp [fetch_single, hcfg, ht]
  · intro r; cases r <;> rfl
  · intro s₁ s₂ b₁ b₂; rfl
  · cases hcfg : w.configExists <;> cases htx : w.targetExists <;> cases hp : w.parse <;>
      simp [fetch_single, hcfg, htx, hp] <;> (try split) <;> simp
  · cases hcfg : w.configExists <;> cases htx : w.targetExists <;> cases hp : w.parse <;>
      simp [fetch_single, hcfg, htx, hp] <;> (try split) <;> simp
  · intro hd
    constructor <;> simp [fetchStep, hres, hd, StepState.record]
  · intro hd hgit
    constructor <;> simp [fetchStep, hres, hd, hgit, StepState.record]
  · intro hd hgit
    cases henv : env.fetchOut name <;>
      simp [fetchStep, hres, hd, hgit, henv, StepState.record] <;>
      split <;> simp [StepState.record]
  · intro call hcall
    rcases fetch_single_calls w with h | ⟨repos, hp, h⟩
    · rw [h] at hcall; simp at hcall
    · rw [h] at hcall
      unfold fetchLoop at hcall
      exact fetchFold_calls_pred _ repos (fun c =>
        c.args = ["git", "fetch", "--all", "--prune"] ∧ c.timeoutSecs = 300)
        (fun p => ⟨rfl, rfl⟩) _ (by simp) call hcall
  · intro ienv fs₀ repos call hcall
    exact initFold_calls_pred ienv repos (fun c => c.timeoutSecs = 300)
      (fun u d => rfl) _ (by simp) call hcall


/-- C9 does not hold as stated: an entry with an explicit `directory` field
containing a separator resolves to a localName with an embedded `'/'`, and
the fetch loop (which performs no schema validation) uses it verbatim as the
child path, producing a nested `cwd`. -/
theorem resolved_name_separator_counterexample :
    resolveRepo (.dict (some "https://example.com/user/repo.git") (some "nested/dir")) =
      .resolved "https://example.com/user/repo.git" "nested/dir" ∧
    '/' ∈ ("nested/dir" : String).data ∧
    (fetchStep ⟨"/ws", fun _ => true, fun _ => true, fun _ => .timedOut⟩ ⟨[], [], []⟩
        (.dict (some "https://example.com/user/repo.git") (some "nested/dir"))).calls =
      [⟨["git", "fetch", "--all", "--prune"], some "/ws/nested/dir", 300⟩] := by
  refine ⟨by decide, by decide, ?_⟩
  decide

/-- C9 amended: a URL-derived localName (the plain-string case and the
dict-without-directory case) never contains an embedded `'/'`; a non-empty
explicit `directory` field is used verbatim as the localName, so the
single-segment invariant for it rests on schema validation, which fetch does
not perform. -/
theorem url_derived_name_single_segment (url d : String) (hu : url ≠ "") (hd : d ≠ "") :
    '/' ∉ (getRepoNameFromUrl url).data ∧
    (∀ name, resolveRepo (.strUrl url) = .resolved url name → '/' ∉ name.data) ∧
    resolveRepo (.dict (some url) (some d)) = .resolved url d := by
  refine ⟨getRepoNameFromUrl_no_sep url, ?_, ?_⟩
  · intro name h
    simp only [resolveRepo, Resolution.resolved.injEq] at h
    rw [← h.2]
    exact getRepoNameFromUrl_no_sep url
  · have hu' : url.isEmpty = false := by
      rw [Bool.eq_false_iff]
      intro h; exact hu ((String.isEmpty_iff url).mp h)
    have hd' : d.isEmpty = false := by
      rw [Bool.eq_false_iff]
      intro h; exact hd ((String.isEmpty_iff d).mp h)
    simp [resolveRepo, pyTruthy, hu', resolveName, hd']

theorem url_derived_name_single_segment_witness :
    '/' ∉ (getRepoNameFromUrl "https://example.com/user/repo.git").data := by
  exact (url_derived_name_single_segment "https://example.com/user/repo.git" "custom"
    (by decide) (by decide)).1

theorem init_target_dir_guard_witness :
    (init_single ⟨true, true, ["stray.txt", "workspace-config.json"], .ok [.strUrl "u"],
        .valid, false, [], "/t", fun _ _ => .timedOut, fun _ => 0, fun _ => false,
        fun _ => false, fun _ => .timedOut⟩).stop =
      some (.dirtyTarget ["stray.txt"]) := by
  have h := (init_target_dir_guard ⟨true, true, ["stray.txt", "workspace-config.json"],
    .ok [.strUrl "u"], .valid, false, [], "/t", fun _ _ => .timedOut, fun _ => 0,
    fun _ => false, fun _ => false, fun _ => .timedOut⟩ "stray.txt" rfl rfl
    (by simp) (by decide)).1
  rw [h, show otherFiles ["stray.txt", "workspace-config.json"] = ["stray.txt"] from by decide]

theorem init_never_overwrites_witness :
    (initStep ⟨"/t", fun _ _ => .timedOut, fun _ => 0⟩ ⟨[("repo", 7)], [], []⟩
        (.strUrl "https://example.com/user/repo.git")).results =
      [⟨"https://example.com/user/repo.git", "repo", .failed,
        "Directory repo already exists"⟩] := by
  have h := (init_never_overwrites ⟨"/t", fun _ _ => .timedOut, fun _ => 0⟩
    ⟨[("repo", 7)], [], []⟩ (.strUrl "https://example.com/user/repo.git")
    "https://example.com/user/repo.git" "repo" [] (by decide) (by decide)).1
  rw [h]; decide

theorem fetch_preconditions_witness :
    (fetchStep ⟨"/t", fun _ => false, fun _ => false, fun _ => .timedOut⟩ ⟨[], [], []⟩
        (.strUrl "https://example.com/user/repo.git")).calls = [] := by
  have h := (fetch_preconditions ⟨true, false, [], .ok [], .valid, false, [], "/t",
    fun _ _ => .timedOut, fun _ => 0, fun _ => false, fun _ => false, fun _ => .timedOut⟩
    ⟨"/t", fun _ => false, fun _ => false, fun _ => .timedOut⟩ ⟨[], [], []⟩
    (.strUrl "https://example.com/user/repo.git")
    "https://example.com/user/repo.git" "repo" (by decide)).2.2.2.2.2.1 rfl
  rw [h.2]

theorem completed_run_exits_zero_witness :
    (init_single ⟨true, false, [], .ok [.strUrl "https://example.com/user/repo.git"],
        .valid, false, [], "/t", fun _ _ => .timedOut, fun _ => 0, fun _ => false,
        fun _ => false, fun _ => .timedOut⟩).stop = none := by
  exact (completed_run_exits_zero ⟨true, false, [], .ok [.strUrl "https://example.com/user/repo.git"],
    .valid, false, [], "/t", fun _ _ => .timedOut, fun _ => 0, fun _ => false,
    fun _ => false, fun _ => .timedOut⟩ [.strUrl "https://example.com/user/repo.git"]
    rfl (by simp [initGuard]) rfl (by intro m; simp) (by simp)).1

theorem init_mkdir_precedes_parse_witness :
    (init_single ⟨true, false, [], .jsonError "Expecting value", .valid, false, [], "/t",
        fun _ _ => .timedOut, fun _ => 0, fun _ => false, fun _ => false,
        fun _ => .timedOut⟩).dirCreated = true := by
  exact ((init_mkdir_precedes_parse ⟨true, false, [], .jsonError "Expecting value", .valid,
    false, [], "/t", fun _ _ => .timedOut, fun _ => 0, fun _ => false, fun _ => false,
    fun _ => .timedOut⟩ rfl rfl).1 "Expecting value" rfl).2.1


end GitWorkspace
